import Mathlib

/-!
Verification development for the muxterm core: layout tree operations,
the tmux layout-string parser, tmux control-line parsing and escape
decoding, the in-band capture transaction queue, and the per-pane
bootstrap buffer.  Each definition is a shallow embedding of the
corresponding TypeScript function; numeric ratios are modelled as
rationals (every ratio arithmetic step exercised here is exact in
double precision), and the JavaScript special values NaN and the two
infinities are modelled by the JSNum type where their handling matters.
-/

namespace Muxterm

/-- Split direction, from src/types.ts. -/
inductive SplitDirection where
  | horizontal
  | vertical
deriving DecidableEq, Repr

/-- Layout tree, from src/types.ts (LayoutNode = PaneNode or SplitNode).
The ratio field is a rational modelling the JS number. -/
inductive LayoutNode where
  | pane (paneId : String)
  | split (direction : SplitDirection) (ratio : ℚ) (first second : LayoutNode)
deriving DecidableEq, Repr

/-- singlePaneLayout, from the layout library. -/
def singlePaneLayout (paneId : String) : LayoutNode :=
  .pane paneId

/-- splitLayoutAtPane, from the layout library: replace the leaf whose
paneId equals targetPaneId by a 0.5 split keeping the target first. -/
def splitLayoutAtPane (layout : LayoutNode) (targetPaneId : String)
    (direction : SplitDirection) (newPaneId : String) : LayoutNode :=
  match layout with
  | .pane p =>
      if p ≠ targetPaneId then .pane p
      else .split direction (mkRat 1 2) (.pane p) (singlePaneLayout newPaneId)
  | .split d r f s =>
      .split d r (splitLayoutAtPane f targetPaneId direction newPaneId)
        (splitLayoutAtPane s targetPaneId direction newPaneId)

/-- removePaneRec, from the layout library: returns the surviving node
(none when everything vanished) and whether a leaf was removed. -/
def removePaneRec (layout : LayoutNode) (paneId : String) :
    Option LayoutNode × Bool :=
  match layout with
  | .pane p =>
      if p = paneId then (none, true) else (some (.pane p), false)
  | .split d r f s =>
      let left := removePaneRec f paneId
      let right := removePaneRec s paneId
      if ¬ left.2 ∧ ¬ right.2 then (some (.split d r f s), false)
      else
        match left.1, right.1 with
        | none, some rn => (some rn, true)
        | some ln, none => (some ln, true)
        | none, none => (none, true)
        | some ln, some rn => (some (.split d r ln rn), true)

/-- removePaneFromLayout, from the layout library. -/
def removePaneFromLayout (layout : LayoutNode) (paneId : String) :
    Option LayoutNode :=
  (removePaneRec layout paneId).1

/-- collectPaneIds, from the layout library: in-order leaf traversal. -/
def collectPaneIds (layout : LayoutNode) : List String :=
  match layout with
  | .pane p => [p]
  | .split _ _ f s => collectPaneIds f ++ collectPaneIds s

/-- Pane list of an optional layout; the none case collects nothing. -/
def collectPaneIdsOpt (layout : Option LayoutNode) : List String :=
  match layout with
  | none => []
  | some l => collectPaneIds l

/-- Math.max on finite doubles, written with an explicit comparison so
that concrete values reduce. -/
def maxQ (a b : ℚ) : ℚ := if a ≤ b then b else a

/-- Math.min on finite doubles, written with an explicit comparison so
that concrete values reduce. -/
def minQ (a b : ℚ) : ℚ := if a ≤ b then a else b

/-- JS double restricted to the values the ratio plumbing distinguishes:
NaN, the two infinities, and finite values (modelled exactly as
rationals; clamping performs no rounding). -/
inductive JSNum where
  | nan
  | posInf
  | negInf
  | fin (q : ℚ)
deriving DecidableEq, Repr

/-- Math.min semantics: NaN propagates, otherwise the smaller value. -/
def jsMin (a b : JSNum) : JSNum :=
  match a, b with
  | .nan, _ => .nan
  | _, .nan => .nan
  | .negInf, _ => .negInf
  | _, .negInf => .negInf
  | .posInf, x => x
  | x, .posInf => x
  | .fin p, .fin q => .fin (minQ p q)

/-- Math.max semantics: NaN propagates, otherwise the larger value. -/
def jsMax (a b : JSNum) : JSNum :=
  match a, b with
  | .nan, _ => .nan
  | _, .nan => .nan
  | .posInf, _ => .posInf
  | _, .posInf => .posInf
  | .negInf, x => x
  | x, .negInf => x
  | .fin p, .fin q => .fin (maxQ p q)

/-- clampRatio, from the workspace component: Number.isNaN check first,
then Math.max(0.1, Math.min(0.9, next)).  Full JS-number model. -/
def clampRatioJS (next : JSNum) : JSNum :=
  if next = .nan then .fin (mkRat 1 2)
  else jsMax (.fin (mkRat 1 10)) (jsMin (.fin (mkRat 9 10)) next)

/-- clampRatio restricted to finite inputs (the form used by the layout
tree operations below, whose ratios are rationals). -/
def clampRatioQ (next : ℚ) : ℚ :=
  maxQ (mkRat 1 10) (minQ (mkRat 9 10) next)

/-- updateSplitRatioAtPath, from the workspace component: the path is a
sequence over L and R; a non-matching path is a no-op. -/
def updateSplitRatioAtPath (layout : LayoutNode) (path : List Char)
    (ratio : ℚ) : LayoutNode :=
  match path with
  | [] =>
      match layout with
      | .pane p => .pane p
      | .split d _ f s => .split d (clampRatioQ ratio) f s
  | head :: rest =>
      match layout with
      | .pane p => .pane p
      | .split d r f s =>
          if head = 'L' then
            .split d r (updateSplitRatioAtPath f rest ratio) s
          else if head = 'R' then
            .split d r f (updateSplitRatioAtPath s rest ratio)
          else .split d r f s

/-- preserveSplitRatios, from the workspace component: keep the previous
ratio when both nodes are splits in the same direction, else take next. -/
def preserveSplitRatios (previous next : LayoutNode) : LayoutNode :=
  match previous, next with
  | .split pd pr pf ps, .split nd nr nf ns =>
      if pd ≠ nd then .split nd nr nf ns
      else .split nd (clampRatioQ pr) (preserveSplitRatios pf nf)
        (preserveSplitRatios ps ns)
  | _, n => n

/-- Boolean predicate: every split ratio of the tree lies in the
clamped interval. -/
def ratiosClamped (layout : LayoutNode) : Bool :=
  match layout with
  | .pane _ => true
  | .split _ r f s =>
      decide (mkRat 1 10 ≤ r) && decide (r ≤ mkRat 9 10) &&
        ratiosClamped f && ratiosClamped s

/-- Tmux-side layout tree produced by the layout-string parser, from
src/lib/tmux.ts (TmuxLayoutNode). -/
inductive TmuxLayoutNode where
  | pane (tmuxPaneId : String)
  | split (direction : SplitDirection) (ratio : ℚ)
      (first second : TmuxLayoutNode)
deriving DecidableEq, Repr

/-- InternalLayoutNode, from src/lib/tmux.ts: a parsed cell with its
width and height spans. -/
structure InternalLayoutNode where
  width : ℕ
  height : ℕ
  node : TmuxLayoutNode
deriving DecidableEq, Repr

/-- stripChecksum, from src/lib/tmux.ts: drop everything through the
first comma when a comma exists, an x exists, and the comma comes
before the x (String.indexOf semantics). -/
def stripChecksum (layout : String) : String :=
  match layout.data.findIdx? (· = ','), layout.data.findIdx? (· = 'x') with
  | some firstComma, some firstX =>
      if firstComma < firstX then ⟨layout.data.drop (firstComma + 1)⟩
      else layout
  | _, _ => layout

/-- readNumber, from the layout-string parser: one or more decimal
digits, Number.parseInt base 10; failure when no digit is present. -/
def readNumber (s : List Char) : Option (ℕ × List Char) :=
  let digits := s.takeWhile (·.isDigit)
  if digits = [] then none
  else some (digits.foldl (fun acc c => 10 * acc + (c.toNat - 48)) 0,
    s.dropWhile (·.isDigit))

/-- consume, from the layout-string parser: expect one literal char. -/
def consumeChar (c : Char) (s : List Char) : Option (List Char) :=
  match s with
  | c' :: rest => if c' = c then some rest else none
  | [] => none

/-- Loop body of foldChildren: left-leaning fold of the n-ary child
list, each step computing ratio currentSpan / max(1, span sum). -/
def foldGo (current : InternalLayoutNode) (rest : List InternalLayoutNode)
    (direction : SplitDirection) : InternalLayoutNode :=
  match rest with
  | [] => current
  | next :: rest2 =>
      let currentSpan : ℕ :=
        if direction = .horizontal then current.width else current.height
      let nextSpan : ℕ :=
        if direction = .horizontal then next.width else next.height
      let total : ℕ := max 1 (currentSpan + nextSpan)
      foldGo
        { width :=
            if direction = .horizontal then current.width + next.width
            else current.width
          height :=
            if direction = .vertical then current.height + next.height
            else current.height
          node := .split direction (mkRat currentSpan total)
            current.node next.node }
        rest2 direction

/-- foldChildren, from the layout-string parser; an empty child list is
a parse error (the source throws). -/
def foldChildren (children : List InternalLayoutNode)
    (direction : SplitDirection) : Option TmuxLayoutNode :=
  match children with
  | [] => none
  | first :: rest => some (foldGo first rest direction).node

mutual

/-- parseCell, from the layout-string parser: WxH,X,Y followed by a
vertical stack, a horizontal row, or a leaf pane number.  The fuel
argument bounds the recursion; the source recursion is bounded by the
input length, and callers supply ample fuel. -/
def parseCell : ℕ → List Char → Option (InternalLayoutNode × List Char)
  | 0, _ => none
  | fuel + 1, s => do
      let (width, s) ← readNumber s
      let s ← consumeChar 'x' s
      let (height, s) ← readNumber s
      let s ← consumeChar ',' s
      let (_, s) ← readNumber s
      let s ← consumeChar ',' s
      let (_, s) ← readNumber s
      match s.head? with
      | some '[' => do
          let (children, s) ← parseCells fuel ']' (s.drop 1)
          let s ← consumeChar ']' s
          let node ← foldChildren children .vertical
          some ({ width := width, height := height, node := node }, s)
      | some '{' => do
          let (children, s) ← parseCells fuel '}' (s.drop 1)
          let s ← consumeChar '}' s
          let node ← foldChildren children .horizontal
          some ({ width := width, height := height, node := node }, s)
      | _ => do
          let s ← consumeChar ',' s
          let (paneNumericId, s) ← readNumber s
          let node : TmuxLayoutNode := .pane ("%" ++ toString paneNumericId)
          some ({ width := width, height := height, node := node }, s)

/-- Child loop of parseCell: parse cells until the closing bracket is
the next char, consuming a separating comma after each child. -/
def parseCells : ℕ → Char → List Char →
    Option (List InternalLayoutNode × List Char)
  | 0, _, _ => none
  | fuel + 1, close, s =>
      if s.head? = some close then some ([], s)
      else do
        let (cell, s) ← parseCell fuel s
        let s := if s.head? = some ',' then s.drop 1 else s
        let (rest, s2) ← parseCells fuel close s
        some (cell :: rest, s2)

end

/-- mapNode, from src/lib/tmux.ts: map tmux pane ids to native pane ids
and clamp each emitted ratio with Math.min(0.9, Math.max(0.1, r)). -/
def mapNode (node : TmuxLayoutNode) (mapPane : String → String) :
    LayoutNode :=
  match node with
  | .pane t => .pane (mapPane t)
  | .split d r f s =>
      .split d (minQ (mkRat 9 10) (maxQ (mkRat 1 10) r)) (mapNode f mapPane)
        (mapNode s mapPane)

/-- parseTmuxLayout, from src/lib/tmux.ts: strip the checksum, parse
the root cell, map the tree.  A parse error yields none (the source
throws and the caller falls back to a synthetic single-pane layout). -/
def parseTmuxLayout (layout : String) (mapPane : String → String) :
    Option LayoutNode :=
  match parseCell (2 * layout.length + 2) (stripChecksum layout).data with
  | some (root, _) => some (mapNode root.node mapPane)
  | none => none

/-- Parsed control-line event, from src/lib/tmux.ts (ParsedTmuxEvent). -/
inductive ParsedTmuxEvent where
  | output (paneId : String) (data : String)
  | windowAdd (windowId : String)
  | windowClose (windowId : String)
  | windowRenamed (windowId : String) (name : String)
  | layoutChange (windowId : String) (layout : String)
  | windowPaneChanged (windowId : String) (paneId : String)
  | sessionChanged (sessionName : String)
  | beginEvt
  | endEvt
  | errorEvt (message : String)
  | other (line : String)
deriving DecidableEq, Repr

/-- Octal digit test, the regex class 0-7. -/
def octDigit (c : Char) : Bool :=
  '0' ≤ c && c ≤ '7'

/-- Byte named by a 3-digit octal escape (parseInt base 8). -/
def octChar (a b c : Char) : Char :=
  Char.ofNat (64 * (a.toNat - 48) + 8 * (b.toNat - 48) + (c.toNat - 48))

/-- Single-char escape fallback of the decoder: n, r and t map to their
controls and any other char maps to itself. -/
def escChar (a : Char) : Char :=
  if a = 'n' then '\n'
  else if a = 'r' then '\r'
  else if a = 't' then '\t'
  else a

/-- decodeTmuxEscapedText, from src/lib/tmux.ts, on char lists: double
backslash, then 3-digit octal, then n r t, then any-other-char; a
dangling final backslash contributes nothing. -/
def decodeChars : List Char → List Char
  | [] => []
  | '\\' :: '\\' :: rest => '\\' :: decodeChars rest
  | '\\' :: a :: b :: c2 :: rest =>
      if octDigit a && octDigit b && octDigit c2 then
        octChar a b c2 :: decodeChars rest
      else escChar a :: decodeChars (b :: c2 :: rest)
  | '\\' :: a :: rest => escChar a :: decodeChars rest
  | ['\\'] => []
  | c :: rest => c :: decodeChars rest

/-- decodeTmuxEscapedText on strings. -/
def decodeTmuxEscapedText (payload : String) : String :=
  ⟨decodeChars payload.data⟩

/-- String.startsWith of the source, via list prefix testing. -/
def strStarts (line pre : String) : Bool :=
  pre.data.isPrefixOf line.data

/-- JS whitespace class restricted to ASCII; framed control lines
contain no code points beyond ASCII whitespace in the spots the
regexes test with a whitespace class. -/
def isJsWs (c : Char) : Bool :=
  c = ' ' || c = '\t' || c = '\x0b' || c = '\x0c' || c = '\r' || c = '\n'

/-- Literal prefix matcher used to model an anchored regex literal. -/
def stripLit (lit s : List Char) : Option (List Char) :=
  if lit.isPrefixOf s then some (s.drop lit.length) else none

/-- Whitespace-plus matcher of the control-line regexes: require at
least one whitespace char, consume the maximal run. -/
def takeWs1 (s : List Char) : Option (List Char) :=
  match s with
  | c :: rest => if isJsWs c then some (rest.dropWhile isJsWs) else none
  | [] => none

/-- Digit-plus matcher of the control-line regexes: the maximal
nonempty digit run and the remainder. -/
def takeDigits1 (s : List Char) : Option (List Char × List Char) :=
  let ds := s.takeWhile (·.isDigit)
  if ds = [] then none else some (ds, s.dropWhile (·.isDigit))

/-- Optional single whitespace before a dot-star capture. -/
def dropOptWs (s : List Char) : List Char :=
  match s with
  | c :: rest => if isJsWs c then rest else c :: rest
  | [] => []

/-- Tail test of the regexes ending in an optional whitespace-led
group: the remainder must be empty or begin with whitespace. -/
def tailOkAfterId (s : List Char) : Bool :=
  match s with
  | [] => true
  | c :: _ => isJsWs c

/-- Model of a trailing whitespace-plus dot-plus capture: the maximal
whitespace run, then a nonempty remainder; when the remainder would be
empty the regex backtracks one whitespace char into the capture. -/
def wsThenRest1 (s : List Char) : Option (List Char) :=
  let wsRun := s.takeWhile isJsWs
  let rest := s.dropWhile isJsWs
  if wsRun = [] then none
  else if rest ≠ [] then some rest
  else if 2 ≤ wsRun.length then
    match wsRun.getLast? with
    | some c => some [c]
    | none => none
  else none

/-- Model of the output regex: percent-output, whitespace, a percent
pane id, an optional single whitespace, then the data capture. -/
def matchOutput (s : List Char) : Option (String × String) := do
  let s ← stripLit "%output".data s
  let s ← takeWs1 s
  let s ← consumeChar '%' s
  let (ds, s) ← takeDigits1 s
  some (⟨'%' :: ds⟩, ⟨dropOptWs s⟩)

/-- Model of the extended-output regex: an extra numeric field sits
between the pane id and the data. -/
def matchExtendedOutput (s : List Char) : Option (String × String) := do
  let s ← stripLit "%extended-output".data s
  let s ← takeWs1 s
  let s ← consumeChar '%' s
  let (ds, s) ← takeDigits1 s
  let s ← takeWs1 s
  let (_, s) ← takeDigits1 s
  some (⟨'%' :: ds⟩, ⟨dropOptWs s⟩)

/-- Model of the window-add and window-close regexes: an at-sign window
id, then nothing or whitespace-led trailing text. -/
def matchWindowId (lit : String) (s : List Char) : Option String := do
  let s ← stripLit lit.data s
  let s ← takeWs1 s
  let s ← consumeChar '@' s
  let (ds, s) ← takeDigits1 s
  if tailOkAfterId s then some ⟨'@' :: ds⟩ else none

/-- Model of the window-renamed regex: window id then a nonempty name
capture after whitespace. -/
def matchWindowRenamed (s : List Char) : Option (String × String) := do
  let s ← stripLit "%window-renamed".data s
  let s ← takeWs1 s
  let s ← consumeChar '@' s
  let (ds, s) ← takeDigits1 s
  let name ← wsThenRest1 s
  some (⟨'@' :: ds⟩, ⟨name⟩)

/-- Model of the layout-change regex: window id then a nonempty run of
non-whitespace chars; trailing text is ignored. -/
def matchLayoutChange (s : List Char) : Option (String × String) := do
  let s ← stripLit "%layout-change".data s
  let s ← takeWs1 s
  let s ← consumeChar '@' s
  let (ds, s) ← takeDigits1 s
  let s ← takeWs1 s
  let layout := s.takeWhile (fun c => ¬ isJsWs c)
  if layout = [] then none else some (⟨'@' :: ds⟩, ⟨layout⟩)

/-- Model of the window-pane-changed regex: window id, whitespace, pane
id, then nothing or whitespace-led trailing text. -/
def matchWindowPaneChanged (s : List Char) : Option (String × String) := do
  let s ← stripLit "%window-pane-changed".data s
  let s ← takeWs1 s
  let s ← consumeChar '@' s
  let (wds, s) ← takeDigits1 s
  let s ← takeWs1 s
  let s ← consumeChar '%' s
  let (pds, s) ← takeDigits1 s
  if tailOkAfterId s then some (⟨'@' :: wds⟩, ⟨'%' :: pds⟩) else none

/-- Model of the session-changed regex: an optional dollar sign, a
numeric session id, then the nonempty session name. -/
def matchSessionChanged (s : List Char) : Option String := do
  let s ← stripLit "%session-changed".data s
  let s ← takeWs1 s
  let s := match s with
    | '$' :: rest => rest
    | other => other
  let (_, s) ← takeDigits1 s
  let name ← wsThenRest1 s
  some ⟨name⟩

/-- parseTmuxControlLine, from src/lib/tmux.ts: prefix checks for begin,
end and error, then the regex alternatives in source order, finally the
catch-all other event. -/
def parseTmuxControlLine (line : String) : ParsedTmuxEvent :=
  if strStarts line "%begin" then .beginEvt
  else if strStarts line "%end" then .endEvt
  else if strStarts line "%error" then .errorEvt ((line.drop 6).trim)
  else match matchOutput line.data with
  | some (pid, data) => .output pid (decodeTmuxEscapedText data)
  | none => match matchExtendedOutput line.data with
  | some (pid, data) => .output pid (decodeTmuxEscapedText data)
  | none => match matchWindowId "%window-add" line.data with
  | some wid => .windowAdd wid
  | none => match matchWindowId "%window-close" line.data with
  | some wid => .windowClose wid
  | none => match matchWindowRenamed line.data with
  | some (wid, name) => .windowRenamed wid name
  | none => match matchLayoutChange line.data with
  | some (wid, layout) => .layoutChange wid layout
  | none => match matchWindowPaneChanged line.data with
  | some (wid, pid) => .windowPaneChanged wid pid
  | none => match matchSessionChanged line.data with
  | some name => .sessionChanged name
  | none => .other line

/-- JavaScript String.split with separator two colons: scan left to
right for the first non-overlapping separator occurrence. -/
def splitOnColons : List Char → List (List Char)
  | [] => [[]]
  | ':' :: ':' :: rest => [] :: splitOnColons rest
  | c :: rest =>
      match splitOnColons rest with
      | [] => [[c]]
      | p :: ps => (c :: p) :: ps

/-- Containment test for the double-colon separator, used to state the
side conditions of the bootstrap window-line parse. -/
def hasDoubleColon : List Char → Bool
  | ':' :: ':' :: _ => true
  | _ :: rest => hasDoubleColon rest
  | [] => false

/-- JavaScript Array.join with separator two colons. -/
def joinColons : List (List Char) → List Char
  | [] => []
  | [p] => p
  | p :: ps => p ++ ':' :: ':' :: joinColons ps

/-- Result of parseBootstrapWindowLine. -/
structure BootstrapWindow where
  windowId : List Char
  name : List Char
  layout : List Char
deriving DecidableEq, Repr

/-- parseBootstrapWindowLine, from src/lib/tmux.ts, on char lists: the
marker, a double-colon split requiring at least three parts, and the
layout reassembled by joining the remaining parts. -/
def parseBootstrapWindowLine (line : List Char) :
    Option BootstrapWindow :=
  let marker := "__WINDOW__::".data
  if marker.isPrefixOf line then
    let data := line.drop marker.length
    match splitOnColons data with
    | windowId :: name :: layoutParts =>
        if layoutParts = [] then none
        else some ⟨windowId, name, joinColons layoutParts⟩
    | _ => none
  else none

/-- Pending capture request, from the workspace component
(PendingTmuxCapture); the resolve callback and the timer handle are
modelled by the effect list and the timeout transition. -/
structure PendingTmuxCapture where
  tmuxPaneId : String
  lines : List String
  collecting : Bool
deriving DecidableEq, Repr

/-- Per-controller capture transaction state: the FIFO queue and the
at-most-one active slot. -/
structure CaptureState where
  queue : List PendingTmuxCapture
  active : Option PendingTmuxCapture
deriving DecidableEq, Repr

/-- Externally visible effects of the capture machinery: a resolved
request (pane id and captured text) or a command written to the
control pty. -/
inductive CaptureEffect where
  | resolve (tmuxPaneId : String) (captured : String)
  | write (command : String)
deriving DecidableEq, Repr

/-- Command line written for a capture request. -/
def captureCommand (tmuxPaneId : String) : String :=
  "capture-pane -p -J -S -3000 -t " ++ tmuxPaneId ++ "\n"

/-- runNextTmuxCapture, from the workspace component: when no request
is active, promote the queue head to the active slot and write its
capture command. -/
def runNextTmuxCapture (s : CaptureState) : CaptureState × List CaptureEffect :=
  if s.active.isSome then (s, [])
  else
    match s.queue with
    | [] => (s, [])
    | next :: rest =>
        ({ queue := rest, active := some next },
          [.write (captureCommand next.tmuxPaneId)])

/-- captureTmuxPaneInBand, from the workspace component: append a fresh
request to the queue and try to start it. -/
def enqueueCapture (s : CaptureState) (tmuxPaneId : String) :
    CaptureState × List CaptureEffect :=
  runNextTmuxCapture
    { s with queue :=
        s.queue ++ [{ tmuxPaneId := tmuxPaneId, lines := [], collecting := false }] }

/-- Five-second timeout of the active request: resolve with the empty
string, clear the slot, run the next request. -/
def captureTimeoutFire (s : CaptureState) : CaptureState × List CaptureEffect :=
  match s.active with
  | none => (s, [])
  | some ac =>
      let (s2, effs) := runNextTmuxCapture { s with active := none }
      (s2, .resolve ac.tmuxPaneId "" :: effs)

/-- Result of feeding one line to the transaction correlator. -/
structure HandleResult where
  state : CaptureState
  effects : List CaptureEffect
  consumed : Bool
deriving DecidableEq, Repr

/-- Transaction-correlation head of handleTmuxControlLine, from the
workspace component: while a request is active, begin marks collecting,
end or error resolves with the collected lines joined by newlines and
starts the next request, and a collecting non-percent line is
appended; any other line falls through to the rest of the handler. -/
def handleCaptureLine (s : CaptureState) (line : String) : HandleResult :=
  match s.active with
  | none => ⟨s, [], false⟩
  | some ac =>
      if strStarts line "%begin" then
        ⟨{ s with active := some { ac with collecting := true } }, [], true⟩
      else if strStarts line "%end" || strStarts line "%error" then
        let (s2, effs) := runNextTmuxCapture { s with active := none }
        ⟨s2, .resolve ac.tmuxPaneId (String.intercalate "\n" ac.lines) :: effs,
          true⟩
      else if ac.collecting && ¬ strStarts line "%" then
        ⟨{ s with active := some { ac with lines := ac.lines ++ [line] } }, [],
          true⟩
      else ⟨s, [], false⟩

/-- Bootstrap buffer cap, from the workspace component. -/
def MAX_TMUX_BOOTSTRAP_BUFFER_BYTES : ℕ := 512 * 1024

/-- Bootstrap buffer of a pane (TmuxPaneBootstrapState); the flush
timer handle is modelled by the timer transition below. -/
structure BootstrapBuf where
  chunks : List String
  totalBytes : ℕ
deriving DecidableEq, Repr

/-- State of one tmux pane between first output and hydration: the
optional live bootstrap buffer, the bytes written to the pane writer in
order, and a ghost counter of flushes that consumed a live buffer. -/
structure PaneBootState where
  bootstrap : Option BootstrapBuf
  writes : List String
  flushCount : ℕ
deriving DecidableEq, Repr

/-- flushTmuxBootstrapPane, from the workspace component: with no live
buffer only a nonempty captured history is written; with a live buffer
the buffer is dropped, then the captured history is written when
nonempty, else the buffered chunks in order. -/
def flushPane (s : PaneBootState) (capturedHistory : Option String) :
    PaneBootState :=
  match s.bootstrap with
  | none =>
      match capturedHistory with
      | some h => if 0 < h.length then { s with writes := s.writes ++ [h] } else s
      | none => s
  | some b =>
      let s2 : PaneBootState :=
        { bootstrap := none, writes := s.writes, flushCount := s.flushCount + 1 }
      match capturedHistory with
      | some h =>
          if 0 < h.length then { s2 with writes := s2.writes ++ [h] }
          else { s2 with writes := s2.writes ++ b.chunks }
      | none => { s2 with writes := s2.writes ++ b.chunks }

/-- Oldest-first eviction loop of the output handler: drop leading
chunks while the cap is exceeded and more than one chunk remains. -/
def evictChunks : List String → ℕ → List String × ℕ
  | [], total => ([], total)
  | c :: rest, total =>
      if MAX_TMUX_BOOTSTRAP_BUFFER_BYTES < total ∧ rest ≠ [] then
        evictChunks rest (total - c.length)
      else (c :: rest, total)

/-- Output dispatch for a bound tmux pane, from handleTmuxControlLine:
empty sanitized data is dropped; with a live bootstrap buffer the chunk
is appended, the eviction loop runs, and reaching the cap flushes; with
no buffer the data streams straight to the pane writer. -/
def handlePaneOutput (s : PaneBootState) (data : String) : PaneBootState :=
  if data.length = 0 then s
  else
    match s.bootstrap with
    | some b =>
        let ev := evictChunks (b.chunks ++ [data]) (b.totalBytes + data.length)
        let s2 : PaneBootState :=
          { s with bootstrap := some { chunks := ev.1, totalBytes := ev.2 } }
        if MAX_TMUX_BOOTSTRAP_BUFFER_BYTES ≤ ev.2 then flushPane s2 none else s2
    | none => { s with writes := s.writes ++ [data] }

/-- Event alphabet of one pane's bootstrap lifecycle: an output chunk,
the fifteen-second flush deadline firing, or history hydration
completing with its optional captured text.  The deadline transition is
enabled only while the buffer is live, because a flush clears the
pending timer. -/
inductive BootEvent where
  | out (data : String)
  | timer
  | hydrated (captured : Option String)
deriving DecidableEq, Repr

/-- One bootstrap lifecycle step. -/
def bootStep (s : PaneBootState) : BootEvent → PaneBootState
  | .out d => handlePaneOutput s d
  | .timer =>
      match s.bootstrap with
      | some _ => flushPane s none
      | none => s
  | .hydrated c => flushPane s c

/-- Run of a bootstrap event trace. -/
def bootRun (s : PaneBootState) (events : List BootEvent) : PaneBootState :=
  events.foldl bootStep s

/-- Fresh bootstrap state installed when a pane is first mapped. -/
def bootInit : PaneBootState :=
  { bootstrap := some { chunks := [], totalBytes := 0 }, writes := [],
    flushCount := 0 }

theorem mkRat_half : (mkRat 1 2 : ℚ) = 1/2 := by
  rw [Rat.mkRat_eq_div]; norm_num

theorem mkRat_tenth : (mkRat 1 10 : ℚ) = 1/10 := by
  rw [Rat.mkRat_eq_div]; norm_num

theorem mkRat_nine_tenths : (mkRat 9 10 : ℚ) = 9/10 := by
  rw [Rat.mkRat_eq_div]; norm_num

theorem maxQ_eq_max (a b : ℚ) : maxQ a b = max a b := by
  rw [maxQ, max_def]

theorem minQ_eq_min (a b : ℚ) : minQ a b = min a b := by
  rw [minQ, min_def]

/-- C4: parsing the layout string 9d2f,120x30,0,0{60x30,0,0,1,60x30,60,0,2}
yields Split(horizontal, 0.5, Pane %1, Pane %2); the checksum prefix is
stripped exactly when the first comma precedes the first x, as the two
stripChecksum conjuncts exhibit on both sides of the condition; the
single-cell layout parses to its leaf. -/
theorem c4_layout_parse_concrete :
    parseTmuxLayout "9d2f,120x30,0,0{60x30,0,0,1,60x30,60,0,2}" id =
      some (.split .horizontal (1/2) (.pane "%1") (.pane "%2")) ∧
    stripChecksum "9d2f,120x30,0,0{60x30,0,0,1,60x30,60,0,2}" =
      "120x30,0,0{60x30,0,0,1,60x30,60,0,2}" ∧
    stripChecksum "80x24,0,0,0" = "80x24,0,0,0" ∧
    parseTmuxLayout "80x24,0,0,0" id = some (.pane "%0") := by
  refine ⟨?_, ?_, ?_, ?_⟩
  · rw [← mkRat_half]; decide
  · decide
  · decide
  · decide

/-- C1 counterexample: with the request for pane %4 active and the line
dataA collected since %begin, consuming an %error line resolves the
request with dataA, not with the empty string. -/
theorem c1_error_counterexample :
    (handleCaptureLine
        ⟨[], some ⟨"%4", ["dataA"], true⟩⟩
        "%error bad").effects =
      [.resolve "%4" "dataA"] ∧ decide (("dataA" : String) = "") = false := by
  exact ⟨by decide, by decide⟩

/-- C2 counterexample: one buffered output chunk, then the flush
deadline fires, then hydration completes with captured history H; the
pane writer receives both the buffered chunk and the captured history,
which is none of the three exclusive outcomes. -/
theorem c2_flush_counterexample :
    (bootRun bootInit [.out "A", .timer, .hydrated (some "H")]).writes =
        ["A", "H"] ∧
      decide ((["A", "H"] : List String) = ["H"]) = false ∧
      decide ((["A", "H"] : List String) = ["A"]) = false ∧
      decide ((["A", "H"] : List String) = []) = false := by
  exact ⟨by decide, by decide, by decide, by decide⟩

/-- C3 counterexample: clampRatio maps positive infinity to 0.9, not to
0.5 as claimed for non-finite values. -/
theorem c3_clamp_counterexample :
    clampRatioJS .posInf = .fin (9/10) ∧
      decide (JSNum.fin ((9:ℚ)/10) = .fin (1/2)) = false := by
  constructor
  · rw [← mkRat_nine_tenths]; decide
  · rw [← mkRat_nine_tenths, ← mkRat_half]; decide

/-- C6 counterexample: on a tree in which the pane id occurs twice the
removal returns none although the tree is not the single leaf of that
pane; the None-iff-single-leaf reading of the claim needs the layout
invariant that no pane id repeats. -/
theorem c6_remove_counterexample :
    removePaneFromLayout
        (.split .horizontal (1/2) (.pane "a") (.pane "a")) "a" = none ∧
      decide (LayoutNode.split .horizontal (1/2) (.pane "a") (.pane "a") =
        .pane "a") = false := by
  rw [← mkRat_half]
  exact ⟨by decide, by decide⟩

/-- C10 counterexample: with windowId a-colon (which contains no double
colon), the double-colon split regroups at the boundary and the parsed
fields are a and colon-b rather than a-colon and b. -/
theorem c10_split_counterexample :
    parseBootstrapWindowLine "__WINDOW__::a:::b::c".data =
      some ⟨"a".data, ":b".data, "c".data⟩ ∧
    decide ((some (BootstrapWindow.mk "a".data ":b".data "c".data) :
        Option BootstrapWindow) =
      some ⟨"a:".data, "b".data, "c".data⟩) = false := by
  exact ⟨by decide, by decide⟩

/-- C3 (amended): clampRatio coerces NaN to 0.5, sends positive
infinity to 0.9 and negative infinity to 0.1, and clamps every finite
value into the interval 0.1 to 0.9; the clamp used by the layout-parser
emission, min 0.9 of max 0.1, agrees with it on finite values. -/
theorem c3_clamp_behavior :
    clampRatioJS .nan = .fin (1/2) ∧
    clampRatioJS .posInf = .fin (9/10) ∧
    clampRatioJS .negInf = .fin (1/10) ∧
    (∀ q : ℚ, clampRatioJS (.fin q) = .fin (clampRatioQ q)) ∧
    (∀ q : ℚ, clampRatioQ q = max (1/10) (min (9/10) q)) ∧
    (∀ q : ℚ, 1/10 ≤ clampRatioQ q ∧ clampRatioQ q ≤ 9/10) ∧
    (∀ q : ℚ, minQ (mkRat 9 10) (maxQ (mkRat 1 10) q) = clampRatioQ q) := by
  have hq : ∀ q : ℚ, clampRatioQ q = max (1/10) (min (9/10) q) := by
    intro q
    rw [clampRatioQ, maxQ_eq_max, minQ_eq_min, mkRat_tenth, mkRat_nine_tenths]
  refine ⟨?_, ?_, ?_, ?_, hq, ?_, ?_⟩
  · rw [← mkRat_half]; decide
  · rw [← mkRat_nine_tenths]; decide
  · rw [← mkRat_tenth]; decide
  · intro q
    simp [clampRatioJS, jsMax, jsMin, clampRatioQ]
  · intro q
    rw [hq]
    refine ⟨le_max_left _ _, max_le (by norm_num) (min_le_left _ _)⟩
  · intro q
    rw [hq, maxQ_eq_max, minQ_eq_min, mkRat_tenth, mkRat_nine_tenths]
    simp only [min_def, max_def]
    split_ifs <;> first | rfl | linarith

theorem isPrefixOf_append_self (p rest : List Char) :
    p.isPrefixOf (p ++ rest) = true := by
  induction p with
  | nil => simp [List.isPrefixOf]
  | cons c cs ih => simp [List.isPrefixOf, ih]

theorem strStarts_error_not_begin (msg : String) :
    strStarts ("%error" ++ msg) "%begin" = false := by
  rw [strStarts, String.data_append]
  simp [List.isPrefixOf]

theorem strStarts_error_not_end (msg : String) :
    strStarts ("%error" ++ msg) "%end" = false := by
  rw [strStarts, String.data_append]
  simp [List.isPrefixOf]

theorem strStarts_error_self (msg : String) :
    strStarts ("%error" ++ msg) "%error" = true := by
  rw [strStarts, String.data_append]
  exact isPrefixOf_append_self "%error".data msg.data

/-- C1 (amended): while a capture request is active, consuming a line
beginning with %error resolves that request with the collected non-%
lines joined by newlines, exactly as %end does, so the empty string
only when nothing was collected; the active slot is cleared and the
queued request at the head, when present, becomes active and has its
capture command written. -/
theorem c1_error_resolution (s : CaptureState) (ac : PendingTmuxCapture)
    (msg : String) (h : s.active = some ac) :
    (handleCaptureLine s ("%error" ++ msg)).consumed = true ∧
    (handleCaptureLine s ("%error" ++ msg)).state.active = s.queue.head? ∧
    (handleCaptureLine s ("%error" ++ msg)).state.queue = s.queue.tail ∧
    (handleCaptureLine s ("%error" ++ msg)).effects =
      .resolve ac.tmuxPaneId (String.intercalate "\n" ac.lines) ::
        (match s.queue with
         | [] => []
         | next :: _ => [.write (captureCommand next.tmuxPaneId)]) := by
  obtain ⟨q, a⟩ := s
  simp only [CaptureState.active] at h
  subst h
  simp only [handleCaptureLine, strStarts_error_not_begin,
    strStarts_error_not_end, strStarts_error_self, Bool.false_eq_true,
    if_false, Bool.or_true, if_true]
  cases q <;>
    simp [runNextTmuxCapture, captureCommand]

/-- Witness for the amended C1 theorem at a concrete controller state
with one collected line and one queued request. -/
theorem c1_error_resolution_witness :
    (CaptureState.mk [⟨"%5", [], false⟩] (some ⟨"%4", ["dataA"], true⟩)).active =
      some ⟨"%4", ["dataA"], true⟩ ∧
    (handleCaptureLine
        (CaptureState.mk [⟨"%5", [], false⟩] (some ⟨"%4", ["dataA"], true⟩))
        ("%error" ++ " boom")).effects =
      .resolve "%4" (String.intercalate "\n" ["dataA"]) ::
        [.write (captureCommand "%5")] :=
  ⟨rfl,
    (c1_error_resolution
      (CaptureState.mk [⟨"%5", [], false⟩] (some ⟨"%4", ["dataA"], true⟩))
      ⟨"%4", ["dataA"], true⟩ " boom" rfl).2.2.2⟩

theorem flushPane_count_le (s : PaneBootState) (c : Option String) :
    (flushPane s c).flushCount ≤ s.flushCount + 1 := by
  rcases hb : s.bootstrap with _ | b <;> rcases c with _ | h <;>
    simp [flushPane, hb] <;> split <;> simp

theorem flushPane_none_state (s : PaneBootState) (c : Option String)
    (h : s.bootstrap = none) :
    (flushPane s c).flushCount = s.flushCount ∧
      (flushPane s c).bootstrap = none := by
  rcases c with _ | hc <;> simp [flushPane, h] <;> split <;> simp [h]

theorem flushPane_some_clears (s : PaneBootState) (c : Option String)
    (h : s.bootstrap.isSome) : (flushPane s c).bootstrap = none := by
  rcases hb : s.bootstrap with _ | b
  · rw [hb] at h; simp at h
  · rcases c with _ | hc <;> simp [flushPane, hb] <;> split <;> simp

theorem bootStep_none_state (s : PaneBootState) (e : BootEvent)
    (h : s.bootstrap = none) :
    (bootStep s e).flushCount = s.flushCount ∧
      (bootStep s e).bootstrap = none := by
  rcases e with d | _ | c
  · simp [bootStep, handlePaneOutput, h]
    split <;> simp [h]
  · simp [bootStep, h]
  · exact flushPane_none_state s c h

theorem bootStep_count_le (s : PaneBootState) (e : BootEvent) :
    (bootStep s e).flushCount ≤ s.flushCount + 1 := by
  rcases e with d | _ | c
  · rcases hb : s.bootstrap with _ | b <;> simp [bootStep, handlePaneOutput, hb]
    · split <;> simp
    · split
      · simp
      · split
        · exact le_trans (flushPane_count_le _ _) (by simp)
        · simp
  · rcases hb : s.bootstrap with _ | b <;> simp [bootStep, hb]
    exact flushPane_count_le _ _
  · exact flushPane_count_le _ _

theorem bootStep_keeps_count (s : PaneBootState) (e : BootEvent)
    (h : (bootStep s e).bootstrap.isSome) :
    (bootStep s e).flushCount = s.flushCount := by
  rcases e with d | _ | c
  · rcases hb : s.bootstrap with _ | b
    · exact (bootStep_none_state s (.out d) hb).1
    · by_cases hd : d.length = 0
      · simp [bootStep, handlePaneOutput, hd]
      · simp only [bootStep, handlePaneOutput, hb, if_neg hd] at h ⊢
        by_cases hcap : MAX_TMUX_BOOTSTRAP_BUFFER_BYTES ≤
            (evictChunks (b.chunks ++ [d]) (b.totalBytes + d.length)).2
        · rw [if_pos hcap] at h
          rw [flushPane_some_clears _ _ (by simp)] at h
          simp at h
        · rw [if_neg hcap]
  · rcases hb : s.bootstrap with _ | b
    · simp [bootStep, hb]
    · simp only [bootStep, hb] at h ⊢
      rw [flushPane_some_clears _ _ (by simp [hb])] at h
      simp at h
  · rcases hb : s.bootstrap with _ | b
    · exact (flushPane_none_state s c hb).1
    · simp only [bootStep] at h ⊢
      rw [flushPane_some_clears _ _ (by simp [hb])] at h
      simp at h

theorem bootRun_none_state (events : List BootEvent) :
    ∀ s : PaneBootState, s.bootstrap = none →
      (bootRun s events).flushCount = s.flushCount ∧
        (bootRun s events).bootstrap = none := by
  induction events with
  | nil => intro s h; exact ⟨rfl, h⟩
  | cons e rest ih =>
      intro s h
      have hs := bootStep_none_state s e h
      have := ih (bootStep s e) hs.2
      exact ⟨this.1.trans hs.1, this.2⟩

theorem bootRun_count_bound (events : List BootEvent) :
    ∀ s : PaneBootState,
      (bootRun s events).flushCount ≤
        s.flushCount + (if s.bootstrap.isSome then 1 else 0) := by
  induction events with
  | nil => intro s; simp [bootRun]
  | cons e rest ih =>
      intro s
      show (bootRun (bootStep s e) rest).flushCount ≤ _
      by_cases ht : (bootStep s e).bootstrap.isSome
      · have hkeep := bootStep_keeps_count s e ht
        have hsome : s.bootstrap.isSome := by
          rcases hb : s.bootstrap with _ | b
          · rw [(bootStep_none_state s e hb).2] at ht; simp at ht
          · simp
        have := ih (bootStep s e)
        rw [hkeep, if_pos ht] at this
        simpa [hsome] using this
      · have hnone : (bootStep s e).bootstrap = none := by
          rcases hb : (bootStep s e).bootstrap with _ | b
          · rfl
          · rw [hb] at ht; simp at ht
        have hrun := bootRun_none_state rest (bootStep s e) hnone
        rw [hrun.1]
        rcases hb : s.bootstrap with _ | b
        · rw [(bootStep_none_state s e hb).1]
          simp [hb]
        · exact le_trans (bootStep_count_le s e) (by simp [hb])

/-- C2 (amended): for any interleaving of output chunks, the flush
deadline and hydration completion, a flush consumes the live bootstrap
buffer at most once, so the buffered chunks are delivered at most once;
when hydration completes first the pane receives exactly the captured
history, a deadline or cap flush delivers exactly the buffered chunks,
and a flush of an untouched pane delivers nothing — but as the recorded
counterexample shows, a hydration that completes after an earlier flush
additionally writes its captured history, so the three outcomes are not
exclusive over the whole lifecycle. -/
theorem c2_bootstrap_flush_once :
    (bootRun bootInit [.out "A", .hydrated (some "H")]).writes = ["H"] ∧
    (bootRun bootInit [.out "A", .timer]).writes = ["A"] ∧
    (bootRun bootInit [.timer]).writes = [] ∧
    (∀ events : List BootEvent, (bootRun bootInit events).flushCount ≤ 1) := by
  refine ⟨by decide, by decide, by decide, ?_⟩
  intro events
  have := bootRun_count_bound events bootInit
  simpa [bootInit] using this

/-- C5: tmux-escape decoding maps a double backslash to one backslash,
a backslash followed by three octal digits to the byte with that octal
value, backslash n r t to their ASCII controls, a backslash before any
other non-octal char to that char, and passes every non-backslash char
through verbatim; parsing the concrete output control line yields the
Output event for pane %3 with the decoded data. -/
theorem c5_decode_rules :
    (∀ s, decodeChars ('\\' :: '\\' :: s) = '\\' :: decodeChars s) ∧
    (∀ a b c2 s, octDigit a = true → octDigit b = true →
      octDigit c2 = true →
      decodeChars ('\\' :: a :: b :: c2 :: s) =
        octChar a b c2 :: decodeChars s) ∧
    (∀ s, decodeChars ('\\' :: 'n' :: s) = '\n' :: decodeChars s) ∧
    (∀ s, decodeChars ('\\' :: 'r' :: s) = '\r' :: decodeChars s) ∧
    (∀ s, decodeChars ('\\' :: 't' :: s) = '\t' :: decodeChars s) ∧
    (∀ x s, x ≠ '\\' → octDigit x = false → x ≠ 'n' → x ≠ 'r' → x ≠ 't' →
      decodeChars ('\\' :: x :: s) = x :: decodeChars s) ∧
    (∀ c s, c ≠ '\\' → decodeChars (c :: s) = c :: decodeChars s) ∧
    parseTmuxControlLine "%output %3 hello\\nworld\\134" =
      .output "%3" "hello\nworld\\" := by
  have hn : octDigit 'n' = false := rfl
  have hr : octDigit 'r' = false := rfl
  have ht : octDigit 't' = false := rfl
  refine ⟨?_, ?_, ?_, ?_, ?_, ?_, ?_, by decide⟩
  · intro s
    simp [decodeChars]
  · intro a b c2 s ha hb hc
    have ha2 : ¬ a = '\\' := by
      intro h
      rw [h] at ha
      exact absurd ha (by decide)
    simp [decodeChars, ha2, ha, hb, hc]
  · intro s
    rcases s with _ | ⟨b, _ | ⟨c2, rest⟩⟩ <;> simp [decodeChars, escChar, hn]
  · intro s
    rcases s with _ | ⟨b, _ | ⟨c2, rest⟩⟩ <;> simp [decodeChars, escChar, hr]
  · intro s
    rcases s with _ | ⟨b, _ | ⟨c2, rest⟩⟩ <;> simp [decodeChars, escChar, ht]
  · intro x s hx hoct hxn hxr hxt
    rcases s with _ | ⟨b, _ | ⟨c2, rest⟩⟩ <;>
      simp [decodeChars, escChar, hx, hoct, hxn, hxr, hxt]
  · intro c s hc
    simp [decodeChars, hc]

/-- Witness for the C5 decode theorem at concrete inputs: the octal
escape 134 inside a string, an escaped plain char, and a verbatim
char. -/
theorem c5_decode_rules_witness :
    (octDigit '1' = true ∧ octDigit '3' = true ∧ octDigit '4' = true ∧
      decodeChars ('\\' :: '1' :: '3' :: '4' :: "x".data) =
        octChar '1' '3' '4' :: decodeChars "x".data) ∧
    (('q' : Char) ≠ '\\' ∧ octDigit 'q' = false ∧ ('q' : Char) ≠ 'n' ∧
      ('q' : Char) ≠ 'r' ∧ ('q' : Char) ≠ 't' ∧
      decodeChars ('\\' :: 'q' :: "z".data) = 'q' :: decodeChars "z".data) ∧
    (('h' : Char) ≠ '\\' ∧
      decodeChars ('h' :: "i".data) = 'h' :: decodeChars "i".data) :=
  ⟨⟨by decide, by decide, by decide,
      c5_decode_rules.2.1 '1' '3' '4' "x".data (by decide) (by decide)
        (by decide)⟩,
    ⟨by decide, by decide, by decide, by decide, by decide,
      c5_decode_rules.2.2.2.2.2.1 'q' "z".data (by decide) (by decide)
        (by decide) (by decide) (by decide)⟩,
    ⟨by decide,
      c5_decode_rules.2.2.2.2.2.2.1 'h' "i".data (by decide)⟩⟩

theorem removePaneRec_split (d : SplitDirection) (r : ℚ)
    (f s : LayoutNode) (p : String) :
    removePaneRec (.split d r f s) p =
      if ¬ (removePaneRec f p).2 ∧ ¬ (removePaneRec s p).2 then
        (some (.split d r f s), false)
      else
        match (removePaneRec f p).1, (removePaneRec s p).1 with
        | none, some rn => (some rn, true)
        | some ln, none => (some ln, true)
        | none, none => (none, true)
        | some ln, some rn => (some (.split d r ln rn), true) := rfl

theorem removePaneRec_not_mem (l : LayoutNode) (p : String)
    (h : p ∉ collectPaneIds l) : removePaneRec l p = (some l, false) := by
  induction l with
  | pane q =>
      simp [collectPaneIds] at h
      simp only [removePaneRec]
      rw [if_neg (fun hq => h hq.symm)]
  | split d r f s ihf ihs =>
      simp [collectPaneIds] at h
      rw [removePaneRec_split, ihf h.1, ihs h.2]
      simp

theorem collectPaneIds_ne_nil (l : LayoutNode) : collectPaneIds l ≠ [] := by
  induction l with
  | pane q => simp [collectPaneIds]
  | split d r f s ihf ihs => simp [collectPaneIds, ihf]

theorem removePaneRec_removed (l : LayoutNode) (p : String) :
    (removePaneRec l p).2 = true ↔ p ∈ collectPaneIds l := by
  induction l with
  | pane q =>
      by_cases h : q = p <;> simp [removePaneRec, collectPaneIds, h]
      exact fun hp => h hp.symm
  | split d r f s ihf ihs =>
      rw [removePaneRec_split]
      by_cases hf : (removePaneRec f p).2 = true
      · have hm : p ∈ collectPaneIds f := ihf.mp hf
        rw [if_neg (by simp [hf])]
        rcases (removePaneRec f p).1 with _ | ln <;>
          rcases (removePaneRec s p).1 with _ | rn <;>
          simp [collectPaneIds, List.mem_append, hm]
      · by_cases hs : (removePaneRec s p).2 = true
        · have hm : p ∈ collectPaneIds s := ihs.mp hs
          rw [if_neg (by simp [hs])]
          rcases (removePaneRec f p).1 with _ | ln <;>
            rcases (removePaneRec s p).1 with _ | rn <;>
            simp [collectPaneIds, List.mem_append, hm]
        · rw [if_pos (by simp [hf, hs])]
          have h1 : p ∉ collectPaneIds f :=
            fun hm => absurd (ihf.mpr hm) (by simp [hf])
          have h2 : p ∉ collectPaneIds s :=
            fun hm => absurd (ihs.mpr hm) (by simp [hs])
          simp [collectPaneIds, List.mem_append, h1, h2]

theorem removePaneRec_spec (p : String) :
    ∀ l : LayoutNode, (collectPaneIds l).Nodup →
      collectPaneIdsOpt (removePaneRec l p).1 = (collectPaneIds l).erase p ∧
      ((removePaneRec l p).1 = none ↔ l = .pane p) := by
  intro l
  induction l with
  | pane q =>
      intro _
      by_cases hq : q = p
      · subst hq
        simp [removePaneRec, collectPaneIdsOpt, collectPaneIds]
      · simp [removePaneRec, collectPaneIdsOpt, collectPaneIds, hq]
  | split d r f s ihf ihs =>
      intro hnd
      rw [collectPaneIds, List.nodup_append] at hnd
      obtain ⟨hnf, hns, hdisj⟩ := hnd
      have Hf := ihf hnf
      have Hs := ihs hns
      have hRf := removePaneRec_removed f p
      have hRs := removePaneRec_removed s p
      rw [removePaneRec_split]
      by_cases hf : p ∈ collectPaneIds f
      · have hs : p ∉ collectPaneIds s := fun hmem => hdisj hf hmem
        have hlfb : (removePaneRec f p).2 = true := hRf.mpr hf
        have hsrec : removePaneRec s p = (some s, false) :=
          removePaneRec_not_mem s p hs
        rw [if_neg (by simp [hlfb])]
        rw [hsrec]
        rcases hopt : (removePaneRec f p).1 with _ | ln
        · rw [hopt] at Hf
          simp only [collectPaneIdsOpt] at Hf
          refine ⟨?_, ?_⟩
          · rw [collectPaneIds, List.erase_append_left _ hf, ← Hf.1]
            simp [collectPaneIdsOpt]
          · simp
        · rw [hopt] at Hf
          simp only [collectPaneIdsOpt] at Hf
          refine ⟨?_, ?_⟩
          · rw [collectPaneIds, List.erase_append_left _ hf, ← Hf.1]
            simp [collectPaneIdsOpt, collectPaneIds]
          · simp
      · by_cases hs : p ∈ collectPaneIds s
        · have hlsb : (removePaneRec s p).2 = true := hRs.mpr hs
          have hfrec : removePaneRec f p = (some f, false) :=
            removePaneRec_not_mem f p hf
          rw [if_neg (by simp [hlsb])]
          rw [hfrec]
          rcases hopt : (removePaneRec s p).1 with _ | rn
          · rw [hopt] at Hs
            simp only [collectPaneIdsOpt] at Hs
            refine ⟨?_, ?_⟩
            · rw [collectPaneIds, List.erase_append_right _ hf, ← Hs.1]
              simp [collectPaneIdsOpt]
            · simp
          · rw [hopt] at Hs
            simp only [collectPaneIdsOpt] at Hs
            refine ⟨?_, ?_⟩
            · rw [collectPaneIds, List.erase_append_right _ hf, ← Hs.1]
              simp [collectPaneIdsOpt, collectPaneIds]
            · simp
        · have hfrec : removePaneRec f p = (some f, false) :=
            removePaneRec_not_mem f p hf
          have hsrec : removePaneRec s p = (some s, false) :=
            removePaneRec_not_mem s p hs
          rw [hfrec, hsrec]
          simp only [Prod.snd]
          rw [if_pos (by simp)]
          refine ⟨?_, by simp⟩
          rw [List.erase_of_not_mem (by simp [collectPaneIds, hf, hs])]
          simp [collectPaneIdsOpt]

theorem removePane_collect (l : LayoutNode) (p : String)
    (h : (collectPaneIds l).Nodup) :
    collectPaneIdsOpt (removePaneFromLayout l p) =
      (collectPaneIds l).erase p :=
  (removePaneRec_spec p l h).1

theorem removePane_none_iff (l : LayoutNode) (p : String)
    (h : (collectPaneIds l).Nodup) :
    removePaneFromLayout l p = none ↔ l = .pane p :=
  (removePaneRec_spec p l h).2

/-- C6 (amended): on layouts in which no pane id occurs twice, which is
the data-model invariant, remove recursively deletes the leaf, a split
with one surviving child collapses to it, a split with no survivors
vanishes, the result is None exactly when the layout is the single leaf
of the removed pane, and a pane id not occurring in the layout leaves
it unchanged; the spec scenario chain evaluates as stated. -/
theorem c6_remove_pane (l : LayoutNode) (p : String)
    (h : (collectPaneIds l).Nodup) :
    (removePaneFromLayout l p = none ↔ l = .pane p) ∧
    collectPaneIdsOpt (removePaneFromLayout l p) =
      (collectPaneIds l).erase p ∧
    (p ∉ collectPaneIds l → removePaneFromLayout l p = some l) ∧
    removePaneFromLayout
        (.split .vertical (3/10) (.pane "a")
          (.split .horizontal (7/10) (.pane "b") (.pane "c"))) "b" =
      some (.split .vertical (3/10) (.pane "a") (.pane "c")) ∧
    removePaneFromLayout
        (.split .vertical (3/10) (.pane "a") (.pane "c")) "a" =
      some (.pane "c") ∧
    removePaneFromLayout (.pane "c") "c" = none := by
  have h3 : ((3:ℚ)/10) = mkRat 3 10 := by rw [Rat.mkRat_eq_div]; norm_num
  have h7 : ((7:ℚ)/10) = mkRat 7 10 := by rw [Rat.mkRat_eq_div]; norm_num
  refine ⟨removePane_none_iff l p h, removePane_collect l p h, ?_, ?_, ?_, ?_⟩
  · intro hnm
    rw [removePaneFromLayout, removePaneRec_not_mem l p hnm]
  · rw [h3, h7]; decide
  · rw [h3]; decide
  · decide

/-- Witness for the amended C6 theorem on the duplicate-free scenario
layout. -/
theorem c6_remove_pane_witness :
    (collectPaneIds
        (.split .vertical (3/10) (.pane "a")
          (.split .horizontal (7/10) (.pane "b") (.pane "c")))).Nodup ∧
    (removePaneFromLayout
        (.split .vertical (3/10) (.pane "a")
          (.split .horizontal (7/10) (.pane "b") (.pane "c"))) "b" = none ↔
      LayoutNode.split .vertical (3/10) (.pane "a")
          (.split .horizontal (7/10) (.pane "b") (.pane "c")) =
        .pane "b") :=
  ⟨by decide,
    (c6_remove_pane
      (.split .vertical (3/10) (.pane "a")
        (.split .horizontal (7/10) (.pane "b") (.pane "c"))) "b"
      (by decide)).1⟩

/-- C7: split-at replaces each leaf carrying the target pane id by a
half split of the target and the new pane, keeping the first child the
target; every other node is unchanged, as the pane-list equation and
the structural equations state, and a missing target leaves the layout
equal to the input; the spec scenario evaluates as stated. -/
theorem c7_split_at :
    (∀ (l : LayoutNode) (t : String) (d : SplitDirection) (n : String),
      t ∉ collectPaneIds l → splitLayoutAtPane l t d n = l) ∧
    (∀ (l : LayoutNode) (t : String) (d : SplitDirection) (n : String),
      collectPaneIds (splitLayoutAtPane l t d n) =
        (collectPaneIds l).flatMap (fun x => if x = t then [t, n] else [x])) ∧
    (∀ (t n : String) (d : SplitDirection),
      splitLayoutAtPane (.pane t) t d n =
        .split d (1/2) (.pane t) (.pane n)) ∧
    (∀ (d' : SplitDirection) (r : ℚ) (f s : LayoutNode) (t n : String)
        (d : SplitDirection),
      splitLayoutAtPane (.split d' r f s) t d n =
        .split d' r (splitLayoutAtPane f t d n) (splitLayoutAtPane s t d n)) ∧
    splitLayoutAtPane (.pane "p1") "p1" .horizontal "p2" =
      .split .horizontal (1/2) (.pane "p1") (.pane "p2") ∧
    collectPaneIds (.split .horizontal (1/2) (.pane "p1") (.pane "p2")) =
      ["p1", "p2"] := by
  refine ⟨?_, ?_, ?_, ?_, ?_, by decide⟩
  · intro l t d n hnm
    induction l with
    | pane q =>
        simp [collectPaneIds] at hnm
        have hq : q ≠ t := fun hq => hnm hq.symm
        simp [splitLayoutAtPane, hq]
    | split d2 r f s ihf ihs =>
        simp [collectPaneIds] at hnm
        simp [splitLayoutAtPane, ihf hnm.1, ihs hnm.2]
  · intro l t d n
    induction l with
    | pane q =>
        by_cases hq : q = t
        · subst hq
          simp [splitLayoutAtPane, singlePaneLayout, collectPaneIds]
        · simp [splitLayoutAtPane, collectPaneIds, hq]
    | split d2 r f s ihf ihs =>
        simp [splitLayoutAtPane, collectPaneIds, ihf, ihs,
          List.flatMap_append]
  · intro t n d
    rw [← mkRat_half]
    simp [splitLayoutAtPane, singlePaneLayout]
  · intro d' r f s t n d
    rfl
  · rw [← mkRat_half]; decide

/-- Witness for the C7 theorem: the target-absent conjunct applied to a
single-pane layout that does not carry the target. -/
theorem c7_split_at_witness :
    ("b" ∉ collectPaneIds (.pane "a")) ∧
    splitLayoutAtPane (.pane "a") "b" .horizontal "c" = .pane "a" :=
  ⟨by decide, c7_split_at.1 (.pane "a") "b" .horizontal "c" (by decide)⟩

theorem clampRatioQ_of_clamped (r : ℚ) (h1 : mkRat 1 10 ≤ r)
    (h2 : r ≤ mkRat 9 10) : clampRatioQ r = r := by
  rw [clampRatioQ, maxQ_eq_max, minQ_eq_min, min_eq_right h2, max_eq_right h1]

/-- C8: the ratio-preserving merge is the identity on two copies of the
same layout whose ratios already lie in the clamped interval, and when
the root shapes differ, a leaf against a split, a split against a leaf,
or two splits of different directions, the merge returns the next
layout wholesale. -/
theorem c8_preserve_ratios :
    (∀ l : LayoutNode, ratiosClamped l = true →
      preserveSplitRatios l l = l) ∧
    (∀ (pid : String) (d : SplitDirection) (r : ℚ) (f s : LayoutNode),
      preserveSplitRatios (.pane pid) (.split d r f s) = .split d r f s) ∧
    (∀ (d : SplitDirection) (r : ℚ) (f s : LayoutNode) (pid : String),
      preserveSplitRatios (.split d r f s) (.pane pid) = .pane pid) ∧
    (∀ (d1 d2 : SplitDirection) (r1 r2 : ℚ) (f1 s1 f2 s2 : LayoutNode),
      d1 ≠ d2 →
      preserveSplitRatios (.split d1 r1 f1 s1) (.split d2 r2 f2 s2) =
        .split d2 r2 f2 s2) := by
  refine ⟨?_, ?_, ?_, ?_⟩
  · intro l hcl
    induction l with
    | pane q => rfl
    | split d r f s ihf ihs =>
        simp only [ratiosClamped, Bool.and_eq_true, decide_eq_true_eq] at hcl
        obtain ⟨⟨⟨h1, h2⟩, hf⟩, hs⟩ := hcl
        simp [preserveSplitRatios, clampRatioQ_of_clamped r h1 h2, ihf hf,
          ihs hs]
  · intro pid d r f s
    rfl
  · intro d r f s pid
    rfl
  · intro d1 d2 r1 r2 f1 s1 f2 s2 hd
    simp [preserveSplitRatios, hd]

/-- Witness for the C8 theorem on a concrete clamped layout and a
concrete direction mismatch. -/
theorem c8_preserve_ratios_witness :
    ratiosClamped
        (.split .horizontal (mkRat 1 2) (.pane "a") (.pane "b")) = true ∧
    preserveSplitRatios
        (.split .horizontal (mkRat 1 2) (.pane "a") (.pane "b"))
        (.split .horizontal (mkRat 1 2) (.pane "a") (.pane "b")) =
      .split .horizontal (mkRat 1 2) (.pane "a") (.pane "b") ∧
    SplitDirection.horizontal ≠ SplitDirection.vertical ∧
    preserveSplitRatios
        (.split .horizontal (mkRat 1 2) (.pane "a") (.pane "b"))
        (.split .vertical (mkRat 1 4) (.pane "c") (.pane "d")) =
      .split .vertical (mkRat 1 4) (.pane "c") (.pane "d") :=
  ⟨by decide,
    c8_preserve_ratios.1
      (.split .horizontal (mkRat 1 2) (.pane "a") (.pane "b")) (by decide),
    by decide,
    c8_preserve_ratios.2.2.2 .horizontal .vertical (mkRat 1 2) (mkRat 1 4)
      (.pane "a") (.pane "b") (.pane "c") (.pane "d") (by decide)⟩

theorem getLast?_cons_ne (x : Char) (xs : List Char) (h : xs ≠ []) :
    (x :: xs).getLast? = xs.getLast? := by
  rcases xs with _ | ⟨y, ys⟩
  · cases h rfl
  · exact List.getLast?_cons_cons

/-- C9: an input ending in a single dangling backslash, one not itself
escaped, decodes to exactly the decoding of the input without it: the
trailing backslash is silently dropped. -/
theorem c9_trailing_backslash (s : List Char)
    (h : s.getLast? ≠ some '\\') :
    decodeChars (s ++ ['\\']) = decodeChars s := by
  suffices H : ∀ (n : ℕ) (s : List Char), s.length ≤ n →
      s.getLast? ≠ some '\\' → decodeChars (s ++ ['\\']) = decodeChars s from
    H s.length s le_rfl h
  intro n
  induction n with
  | zero =>
      intro s hl _
      have hnil : s = [] := List.eq_nil_of_length_eq_zero (Nat.le_zero.mp hl)
      subst hnil
      rfl
  | succ n ih =>
      intro s hl hlast
      rcases s with _ | ⟨c, rest⟩
      · rfl
      by_cases hc : c = '\\'
      · subst hc
        rcases rest with _ | ⟨a, rest2⟩
        · simp at hlast
        by_cases ha : a = '\\'
        · subst ha
          rcases rest2 with _ | ⟨b, rest3⟩
          · simp at hlast
          · rw [show ('\\' :: '\\' :: (b :: rest3)) ++ ['\\'] =
                '\\' :: '\\' :: ((b :: rest3) ++ ['\\']) from rfl]
            rw [decodeChars.eq_2, decodeChars.eq_2]
            congr 1
            refine ih (b::rest3) ?_ ?_
            · simp [List.length_cons] at hl ⊢
              omega
            · rw [getLast?_cons_ne _ _ (by simp),
                getLast?_cons_ne _ _ (by simp)] at hlast
              exact hlast
        · rcases rest2 with _ | ⟨b, rest3⟩
          · rw [show ('\\' :: [a]) ++ ['\\'] = '\\' :: a :: '\\' :: ([]) from rfl]
            rw [decodeChars.eq_4 a ['\\'] (fun hx => ha hx)
              (by intro b c2 r hx; simp at hx)]
            rw [decodeChars.eq_4 a [] (fun hx => ha hx)
              (by intro b c2 r hx; simp at hx)]
            rfl
          · rcases rest3 with _ | ⟨c2, rest4⟩
            · have hb : b ≠ '\\' := by
                rw [getLast?_cons_ne _ _ (by simp),
                  getLast?_cons_ne _ _ (by simp)] at hlast
                simp at hlast
                exact hlast
              rw [show ('\\' :: a :: [b]) ++ ['\\'] = '\\' :: a :: b :: '\\' :: ([])
                from rfl]
              rw [decodeChars.eq_3 a b '\\' [] (fun hx => ha hx)]
              have hoctbs : octDigit '\\' = false := rfl
              rw [hoctbs]
              simp only [Bool.and_false, Bool.false_eq_true, if_false]
              rw [decodeChars.eq_4 a [b] (fun hx => ha hx)
                (by intro x y r hx; simp at hx)]
              congr 1
              rw [decodeChars.eq_6 b ['\\'] (fun _ hx _ => hb hx)
                (fun _ _ _ _ hx _ => hb hx) (fun _ _ hx _ => hb hx)
                (fun hx _ => hb hx),
                decodeChars.eq_6 b [] (fun _ hx _ => hb hx)
                (fun _ _ _ _ hx _ => hb hx) (fun _ _ hx _ => hb hx)
                (fun hx _ => hb hx)]
              rfl
            · rw [show ('\\'::a::b::c2::rest4) ++ ['\\'] =
                  '\\'::a::b::c2::(rest4 ++ ['\\']) from rfl]
              rw [decodeChars.eq_3 a b c2 (rest4 ++ ['\\'])
                (fun hx => ha hx),
                decodeChars.eq_3 a b c2 rest4 (fun hx => ha hx)]
              have hlast4 : rest4.getLast? ≠ some '\\' ∨ rest4 = [] := by
                rcases rest4 with _ | ⟨z, zs⟩
                · exact Or.inr rfl
                · left
                  rw [getLast?_cons_ne _ _ (by simp),
                    getLast?_cons_ne _ _ (by simp),
                    getLast?_cons_ne _ _ (by simp)] at hlast
                  exact hlast
              by_cases hoct : (octDigit a && octDigit b && octDigit c2) = true
              · rw [if_pos hoct, if_pos hoct]
                congr 1
                refine ih rest4 ?_ ?_
                · simp [List.length_cons] at hl ⊢
                  omega
                · rcases hlast4 with h4 | h4
                  · exact h4
                  · subst h4; simp
              · rw [if_neg hoct, if_neg hoct]
                congr 1
                refine ih (b::c2::rest4) ?_ ?_
                · simp [List.length_cons] at hl ⊢
                  omega
                · rw [getLast?_cons_ne _ _ (by simp),
                    getLast?_cons_ne _ _ (by simp)] at hlast
                  exact hlast
      · rw [show (c::rest) ++ ['\\'] = c::(rest ++ ['\\']) from rfl]
        rw [decodeChars.eq_6 c (rest ++ ['\\']) (fun _ hx _ => hc hx)
          (fun _ _ _ _ hx _ => hc hx) (fun _ _ hx _ => hc hx)
          (fun hx _ => hc hx),
          decodeChars.eq_6 c rest (fun _ hx _ => hc hx)
          (fun _ _ _ _ hx _ => hc hx) (fun _ _ hx _ => hc hx)
          (fun hx _ => hc hx)]
        congr 1
        refine ih rest ?_ ?_
        · simp [List.length_cons] at hl ⊢
          omega
        · rcases rest with _ | ⟨z, zs⟩
          · simp
          · rw [getLast?_cons_ne _ _ (by simp)] at hlast
            exact hlast

/-- Witness for the C9 theorem on the concrete input abc followed by a
single backslash. -/
theorem c9_trailing_backslash_witness :
    ("abc".data.getLast? ≠ some '\\') ∧
    decodeChars ("abc".data ++ ['\\']) = decodeChars "abc".data :=
  ⟨by decide, c9_trailing_backslash "abc".data (by decide)⟩

theorem splitOnColons_ne_nil (l : List Char) : splitOnColons l ≠ [] := by
  induction l with
  | nil => simp [splitOnColons.eq_1]
  | cons c rest ih =>
      by_cases h2 : c = ':' ∧ ∃ rest2, rest = ':' :: rest2
      · obtain ⟨hc, rest2, hr⟩ := h2
        subst hc
        subst hr
        rw [splitOnColons.eq_2]
        simp
      · have hcond : ∀ (r1 : List Char), c = ':' → rest = ':' :: r1 →
            False := fun r1 hc hr => h2 ⟨hc, r1, hr⟩
        rw [splitOnColons.eq_3 c rest hcond]
        rcases splitOnColons rest with _ | ⟨p, ps⟩ <;> simp

theorem hasDoubleColon_cons (c d : Char) (w : List Char)
    (h : hasDoubleColon (c :: d :: w) = false) :
    hasDoubleColon (d :: w) = false := by
  by_cases hcd : c = ':' ∧ d = ':'
  · obtain ⟨hc, hd⟩ := hcd
    subst hc
    subst hd
    rw [hasDoubleColon.eq_1] at h
    cases h
  · have hcond : ∀ (r1 : List Char), c = ':' → d :: w = ':' :: r1 →
        False := by
      intro r1 hc hr
      injection hr with h1 _
      exact hcd ⟨hc, h1⟩
    rw [hasDoubleColon.eq_2 c (d :: w) hcond] at h
    exact h

theorem splitOnColons_append (rest : List Char) : ∀ w : List Char,
    hasDoubleColon w = false → w.getLast? ≠ some ':' →
    splitOnColons (w ++ ':' :: ':' :: rest) = w :: splitOnColons rest := by
  intro w
  induction w with
  | nil =>
      intro _ _
      simpa using splitOnColons.eq_2 rest
  | cons c w2 ih =>
      intro hw hl
      rcases w2 with _ | ⟨d, w3⟩
      · have hc : c ≠ ':' := by simpa using hl
        rw [show ([c] ++ ':' :: ':' :: rest) = c :: (':' :: ':' :: rest) from rfl]
        rw [splitOnColons.eq_3 c _ (fun r1 hcc _ => hc hcc)]
        rw [splitOnColons.eq_2]
      · have hcd : ¬ (c = ':' ∧ d = ':') := by
          rintro ⟨hc, hd⟩
          subst hc
          subst hd
          rw [hasDoubleColon.eq_1] at hw
          cases hw
        have hw2 : hasDoubleColon (d :: w3) = false :=
          hasDoubleColon_cons c d w3 hw
        have hl2 : (d :: w3).getLast? ≠ some ':' := by
          rw [getLast?_cons_ne c (d :: w3) (by simp)] at hl
          exact hl
        rw [show ((c :: d :: w3) ++ ':' :: ':' :: rest) =
            c :: ((d :: w3) ++ ':' :: ':' :: rest) from rfl]
        have hcond : ∀ (r1 : List Char), c = ':' →
            (d :: w3) ++ ':' :: ':' :: rest = ':' :: r1 → False := by
          intro r1 hc hr
          injection hr with h1 _
          exact hcd ⟨hc, h1⟩
        rw [splitOnColons.eq_3 c _ hcond]
        rw [ih hw2 hl2]

theorem joinColons_splitOnColons (l : List Char) :
    joinColons (splitOnColons l) = l := by
  suffices H : ∀ (n : ℕ) (l : List Char), l.length ≤ n →
      joinColons (splitOnColons l) = l from H l.length l le_rfl
  intro n
  induction n with
  | zero =>
      intro l hl
      have hnil : l = [] := List.eq_nil_of_length_eq_zero (Nat.le_zero.mp hl)
      subst hnil
      rfl
  | succ n ih =>
      intro l hl
      rcases l with _ | ⟨c, rest⟩
      · rfl
      by_cases h2 : c = ':' ∧ ∃ rest2, rest = ':' :: rest2
      · obtain ⟨hc, rest2, hr⟩ := h2
        subst hc
        subst hr
        rw [splitOnColons.eq_2]
        rcases hs : splitOnColons rest2 with _ | ⟨p, ps⟩
        · exact absurd hs (splitOnColons_ne_nil rest2)
        · have hjoin := ih rest2 (by simp [List.length_cons] at hl ⊢; omega)
          rw [hs] at hjoin
          rw [show joinColons ([] :: p :: ps) =
              ':' :: ':' :: joinColons (p :: ps) from rfl]
          rw [hjoin]
      · have hcond : ∀ (r1 : List Char), c = ':' → rest = ':' :: r1 →
            False := fun r1 hc hr => h2 ⟨hc, r1, hr⟩
        rw [splitOnColons.eq_3 c rest hcond]
        rcases hs : splitOnColons rest with _ | ⟨p, ps⟩
        · exact absurd hs (splitOnColons_ne_nil rest)
        · have hjoin := ih rest (by simp [List.length_cons] at hl ⊢; omega)
          rw [hs] at hjoin
          rcases ps with _ | ⟨p2, ps2⟩
          · rw [show joinColons [c :: p] = c :: p from rfl]
            rw [show joinColons [p] = p from rfl] at hjoin
            rw [hjoin]
          · rw [show joinColons ((c :: p) :: p2 :: ps2) =
                (c :: p) ++ ':' :: ':' :: joinColons (p2 :: ps2) from rfl]
            rw [show joinColons (p :: p2 :: ps2) =
                p ++ ':' :: ':' :: joinColons (p2 :: ps2) from rfl] at hjoin
            rw [List.cons_append, hjoin]

/-- C10 (amended): for window id and name fields that contain no double
colon and do not end in a colon, parsing the marker line returns
exactly those fields with every double colon inside the layout field
reassembled; when the text after the marker splits into fewer than
three double-colon-separated parts the parse returns none.  The
recorded counterexample shows the no-trailing-colon restriction is
necessary: a field ending in a colon shifts the separator match. -/
theorem c10_parse_window_line (w n l : List Char)
    (hw : hasDoubleColon w = false) (hwl : w.getLast? ≠ some ':')
    (hn : hasDoubleColon n = false) (hnl : n.getLast? ≠ some ':') :
    parseBootstrapWindowLine
        ("__WINDOW__::".data ++ (w ++ ':' :: ':' :: (n ++ ':' :: ':' :: l))) =
      some ⟨w, n, l⟩ ∧
    (∀ data : List Char, (splitOnColons data).length < 3 →
      parseBootstrapWindowLine ("__WINDOW__::".data ++ data) = none) := by
  constructor
  · rw [parseBootstrapWindowLine]
    simp only [isPrefixOf_append_self, if_true, List.drop_left]
    rw [splitOnColons_append _ w hw hwl, splitOnColons_append _ n hn hnl]
    rcases hs : splitOnColons l with _ | ⟨p, ps⟩
    · exact absurd hs (splitOnColons_ne_nil l)
    · have hjoin : joinColons (splitOnColons l) = l :=
        joinColons_splitOnColons l
      rw [hs] at hjoin
      simp [hjoin]
  · intro data hlen
    rw [parseBootstrapWindowLine]
    simp only [isPrefixOf_append_self, if_true, List.drop_left]
    rcases hs : splitOnColons data with _ | ⟨a, _ | ⟨b, rest⟩⟩
    · rfl
    · rfl
    · rw [hs] at hlen
      simp [List.length_cons] at hlen
      have hrest : rest = [] := by
        rcases rest with _ | ⟨x, xs⟩
        · rfl
        · simp [List.length_cons] at hlen
          omega
      subst hrest
      simp

/-- Witness for the amended C10 theorem at a concrete window id, name,
and a layout field that itself contains a double colon. -/
theorem c10_parse_window_line_witness :
    (hasDoubleColon "@1".data = false ∧ "@1".data.getLast? ≠ some ':' ∧
      hasDoubleColon "win".data = false ∧
      "win".data.getLast? ≠ some ':') ∧
    parseBootstrapWindowLine
        ("__WINDOW__::".data ++
          ("@1".data ++ ':' :: ':' :: ("win".data ++ ':' :: ':' ::
            "a::b".data))) =
      some ⟨"@1".data, "win".data, "a::b".data⟩ :=
  ⟨⟨by decide, by decide, by decide, by decide⟩,
    (c10_parse_window_line "@1".data "win".data "a::b".data (by decide)
      (by decide) (by decide) (by decide)).1⟩

end Muxterm
